import Mathlib

/-!
Shallow embedding of the pattern-scanning ROM patch engine of
`src/patch.py` (vkiller_scc): integrity-gated loading, opcode-pattern
scanning, address relocation and fragment merging.

A Python `bytearray` is modelled as `List Nat` whose entries are < 256.
Python code that can raise (IndexError on an out-of-range read or write,
ValueError on storing a value outside 0..255, AssertionError from
`assert`) is modelled in `Option` or `Except String`: `none` / `.error`
means the Python code raises at that point.
-/

namespace VkillerScc

/-- Python `rom[i] = v` on a bytearray: IndexError when `i` is out of
range, ValueError when `v` is not a byte value (0..255). -/
def byteSet (rom : List Nat) (i : Nat) (v : Int) : Option (List Nat) :=
  if i < rom.length ∧ 0 ≤ v ∧ v < 256 then some (rom.set i v.toNat) else none

/-- `offset_address` of src/patch.py lines 38-43: reads the 2-byte
little-endian value at `index`, adds `offset`, stores `addr & 255` at
`index` and `addr >> 8` at `index + 1`.  Python `& 255` on an int equals
Python `% 256`, which is `Int` `% 256` here (both give the residue in
0..255 for any sign), and `>> 8` is floor division `Int.fdiv · 256`; the
second store raises ValueError when `addr >> 8` is not in 0..255. -/
def offset_address (rom : List Nat) (index : Nat) (offset : Int) :
    Option (List Nat) := do
  let b0 ← rom[index]?
  let b1 ← rom[index + 1]?
  let addr : Int := (b0 : Int) + (b1 : Int) * 256 + offset
  let rom1 ← byteSet rom index (addr % 256)
  byteSet rom1 (index + 1) (addr.fdiv 256)

/-- The match condition of `patch_mapper` (src/patch.py lines 28-30):
`rom[offset] == 0x32 and rom[offset+1] == 0x00 and rom[offset+2] in
[0x60, 0x80, 0xa0]`. -/
def mapperMatch (rom : List Nat) (o : Nat) : Bool :=
  rom[o]? == some 0x32 && rom[o + 1]? == some 0x00 &&
    (rom[o + 2]? == some 0x60 || rom[o + 2]? == some 0x80 ||
      rom[o + 2]? == some 0xa0)

/-- One iteration of the `patch_mapper` loop body at `o`:
`rom[offset + 2] += 0x10` when the pattern matches. -/
def patch_mapper_step (rom : List Nat) (o : Nat) : List Nat :=
  if mapperMatch rom o then rom.set (o + 2) (rom.getD (o + 2) 0 + 0x10)
  else rom

/-- The `for offset in range(...)` loop of `patch_mapper`: `fuel`
iterations starting at offset `o`. -/
def patch_mapper_go : List Nat → Nat → Nat → List Nat
  | rom, 0, _ => rom
  | rom, fuel + 1, o => patch_mapper_go (patch_mapper_step rom o) fuel (o + 1)

/-- `patch_mapper` of src/patch.py lines 25-31: scan offsets
`range(len(rom) - 2)` and bump each matching operand byte by 0x10. -/
def patch_mapper (rom : List Nat) : List Nat :=
  patch_mapper_go rom (rom.length - 2) 0

/-- `PATCH_IGNORE_LIST` of src/patch.py line 33. -/
def PATCH_IGNORE_LIST : List Nat := [0x20daa, 0x23340, 0x20beb]

/-- `CHANNEL_OFFSET` of src/patch.py line 35. -/
def CHANNEL_OFFSET : Int := 0x0e00

/-- First condition of `patch_music_channel_locations` (lines 51-53),
with Python short-circuit evaluation: `rom[offset] == 0xdd and
rom[offset+1] == 0x21 and (rom[offset+3] & 0xfc) == 0xe0`.  `none`
means an out-of-range read (IndexError). -/
def chanCond1 (rom : List Nat) (o : Nat) : Option Bool := do
  let b0 ← rom[o]?
  if b0 = 0xdd then do
    let b1 ← rom[o + 1]?
    if b1 = 0x21 then do
      let b3 ← rom[o + 3]?
      pure (b3 &&& 0xfc == 0xe0)
    else pure false
  else pure false

/-- The opcode list of the second condition (line 55). -/
def CHAN_OPCODES : List Nat := [0x01, 0x11, 0x21, 0x32, 0x3a, 0x22, 0x2a]

/-- Second condition (lines 55-56): `rom[offset] in [...] and
(rom[offset+2] & 0xfc) == 0xe0`, short-circuited. -/
def chanCond2 (rom : List Nat) (o : Nat) : Option Bool := do
  let b0 ← rom[o]?
  if b0 ∈ CHAN_OPCODES then do
    let b2 ← rom[o + 2]?
    pure (b2 &&& 0xfc == 0xe0)
  else pure false

/-- One iteration of the `patch_music_channel_locations` loop body:
skip offsets on `PATCH_IGNORE_LIST` (`continue`), otherwise test both
patterns, the second on the buffer as left by the first. -/
def channel_step (rom : List Nat) (o : Nat) : Option (List Nat) :=
  if o ∈ PATCH_IGNORE_LIST then some rom
  else do
    let c1 ← chanCond1 rom o
    let rom1 ← if c1 then offset_address rom (o + 2) CHANNEL_OFFSET
               else some rom
    let c2 ← chanCond2 rom1 o
    if c2 then offset_address rom1 (o + 1) CHANNEL_OFFSET else some rom1

/-- The scan loop: `fuel` iterations starting at offset `o`. -/
def channel_go : List Nat → Nat → Nat → Option (List Nat)
  | rom, 0, _ => some rom
  | rom, fuel + 1, o => do
    let rom1 ← channel_step rom o
    channel_go rom1 fuel (o + 1)

/-- `patch_music_channel_locations` of src/patch.py lines 46-57: the scan
range `range(0x20000, 0x213f0)` is hard coded, as is the delta
`CHANNEL_OFFSET`. -/
def patch_music_channel_locations (rom : List Nat) : Option (List Nat) :=
  channel_go rom (0x213f0 - 0x20000) 0x20000

/-! ## MD5 (Python `hashlib.md5(...).hexdigest()`)

`check_hash` (src/patch.py lines 19-22) calls `hashlib.md5`; the digest
is embedded here as the standard MD5 algorithm over a byte list, with
all 32-bit arithmetic done on `Nat` modulo `2 ^ 32`.  `hexdigest`
renders the 16 digest bytes as 32 lowercase hex characters. -/

def M32 : Nat := 4294967296

def md5_K : List Nat :=
  [0xd76aa478, 0xe8c7b756, 0x242070db, 0xc1bdceee,
   0xf57c0faf, 0x4787c62a, 0xa8304613, 0xfd469501,
   0x698098d8, 0x8b44f7af, 0xffff5bb1, 0x895cd7be,
   0x6b901122, 0xfd987193, 0xa679438e, 0x49b40821,
   0xf61e2562, 0xc040b340, 0x265e5a51, 0xe9b6c7aa,
   0xd62f105d, 0x02441453, 0xd8a1e681, 0xe7d3fbc8,
   0x21e1cde6, 0xc33707d6, 0xf4d50d87, 0x455a14ed,
   0xa9e3e905, 0xfcefa3f8, 0x676f02d9, 0x8d2a4c8a,
   0xfffa3942, 0x8771f681, 0x6d9d6122, 0xfde5380c,
   0xa4beea44, 0x4bdecfa9, 0xf6bb4b60, 0xbebfbc70,
   0x289b7ec6, 0xeaa127fa, 0xd4ef3085, 0x04881d05,
   0xd9d4d039, 0xe6db99e5, 0x1fa27cf8, 0xc4ac5665,
   0xf4292244, 0x432aff97, 0xab9423a7, 0xfc93a039,
   0x655b59c3, 0x8f0ccc92, 0xffeff47d, 0x85845dd1,
   0x6fa87e4f, 0xfe2ce6e0, 0xa3014314, 0x4e0811a1,
   0xf7537e82, 0xbd3af235, 0x2ad7d2bb, 0xeb86d391]

def md5_S : List Nat :=
  [7, 12, 17, 22, 7, 12, 17, 22, 7, 12, 17, 22, 7, 12, 17, 22,
   5, 9, 14, 20, 5, 9, 14, 20, 5, 9, 14, 20, 5, 9, 14, 20,
   4, 11, 16, 23, 4, 11, 16, 23, 4, 11, 16, 23, 4, 11, 16, 23,
   6, 10, 15, 21, 6, 10, 15, 21, 6, 10, 15, 21, 6, 10, 15, 21]

def rotl32 (x n : Nat) : Nat := ((x <<< n) ||| (x >>> (32 - n))) % M32

def md5_round (Mw : List Nat) (st : Nat × Nat × Nat × Nat) (i : Nat) :
    Nat × Nat × Nat × Nat :=
  let a := st.1; let b := st.2.1; let c := st.2.2.1; let d := st.2.2.2
  let fg : Nat × Nat :=
    if i < 16 then ((b &&& c) ||| ((b ^^^ 0xffffffff) &&& d), i)
    else if i < 32 then ((d &&& b) ||| ((d ^^^ 0xffffffff) &&& c), (5 * i + 1) % 16)
    else if i < 48 then (b ^^^ c ^^^ d, (3 * i + 5) % 16)
    else (c ^^^ (b ||| (d ^^^ 0xffffffff)), 7 * i % 16)
  let f := (fg.1 + a + md5_K.getD i 0 + Mw.getD fg.2 0) % M32
  (d, (b + rotl32 f (md5_S.getD i 0)) % M32, b, c)

def md5_words (chunk : List Nat) : List Nat :=
  (List.range 16).map fun g =>
    chunk.getD (4 * g) 0 + chunk.getD (4 * g + 1) 0 * 256 +
      chunk.getD (4 * g + 2) 0 * 65536 + chunk.getD (4 * g + 3) 0 * 16777216

def md5_compress (st : Nat × Nat × Nat × Nat) (chunk : List Nat) :
    Nat × Nat × Nat × Nat :=
  let r := (List.range 64).foldl (md5_round (md5_words chunk)) st
  ((st.1 + r.1) % M32, (st.2.1 + r.2.1) % M32,
   (st.2.2.1 + r.2.2.1) % M32, (st.2.2.2 + r.2.2.2) % M32)

def md5_pad (msg : List Nat) : List Nat :=
  let L := msg.length
  let bits := L * 8 % 18446744073709551616
  msg ++ [0x80] ++ List.replicate ((119 - L % 64) % 64) 0 ++
    ((List.range 8).map fun i => bits / 256 ^ i % 256)

def chunks64 : Nat → List Nat → List (List Nat)
  | 0, _ => []
  | _, [] => []
  | fuel + 1, l => l.take 64 :: chunks64 fuel (l.drop 64)

def le4 (x : Nat) : List Nat :=
  [x % 256, x / 256 % 256, x / 65536 % 256, x / 16777216 % 256]

def md5_digest_bytes (msg : List Nat) : List Nat :=
  let p := md5_pad msg
  let st := (chunks64 p.length p).foldl md5_compress
    (0x67452301, 0xefcdab89, 0x98badcfe, 0x10325476)
  le4 st.1 ++ le4 st.2.1 ++ le4 st.2.2.1 ++ le4 st.2.2.2

def hexCharLower (n : Nat) : Char :=
  if n < 10 then Char.ofNat (48 + n) else Char.ofNat (87 + n)

def md5_hexdigest (msg : List Nat) : String :=
  String.mk ((md5_digest_bytes msg).foldr
    (fun b cs => hexCharLower (b / 16) :: hexCharLower (b % 16) :: cs) [])

/-- `check_hash` of src/patch.py lines 19-22: `assert
hashlib.md5(data).hexdigest() == expected_hash`, an exact (case
sensitive) string comparison; on mismatch the assert raises. -/
def check_hash (data : List Nat) (expected_hash : String) :
    Except String Unit :=
  if md5_hexdigest data = expected_hash then Except.ok ()
  else Except.error "Incorrect hash. Are you using the right ROM?"

/-- Python `rom[i]` on a bytearray, in the pipeline (Except form). -/
def byteGetE (rom : List Nat) (i : Nat) : Except String Nat :=
  match rom[i]? with
  | some b => Except.ok b
  | none => Except.error "IndexError"

/-- Python `rom[i] = v` on a bytearray, in the pipeline (Except form). -/
def byteSetE (rom : List Nat) (i : Nat) (v : Nat) : Except String (List Nat) :=
  if i < rom.length ∧ v < 256 then Except.ok (rom.set i v)
  else Except.error "IndexError"

/-- Lines 81-114 of the module-level pipeline of src/patch.py, up to the
external `compile` call: the two loads are abstracted as the input byte
lists, then both digest checks run, then the buffer is composed
(`rom + scc_rom[0x14000:0x1a000] + b' ' * 0x1a000`), then the kick-drum
assert and the fixed byte stores run in source order.  `.error` means
the Python run raises at that point, before any later statement. -/
def pipeline_prefix (vkiller_rom scc_rom : List Nat) :
    Except String (List Nat) := do
  check_hash vkiller_rom "66da3107684286d1eba45efb8eae9113"
  check_hash ((scc_rom.drop 0x14000).take 0x6000)
    "61c33112a5a2cefd1df81dc1434aa42a"
  let rom := vkiller_rom ++ (scc_rom.drop 0x14000).take 0x6000 ++
    List.replicate 0x1a000 0x20
  let b ← byteGetE rom 0x21484
  if b = 0x0a then do
    let rom ← byteSetE rom 0x21485 0x90
    let rom ← byteSetE rom 0x21486 0
    let rom ← byteSetE rom 0x21487 0x90
    let rom ← byteSetE rom 0x21488 0
    let rom ← byteSetE rom 0x213e0 0xc0
    let rom ← byteSetE rom 0x213e1 0
    let rom ← byteSetE rom 0x21404 0xa0
    let rom ← byteSetE rom 0x21405 0
    let rom ← byteSetE rom 0x0078 0xfa
    let rom ← byteSetE rom 0x0077 0xf0
    pure rom
  else Except.error "AssertionError"

/-! ## Fragment merger (the patch-apply loop, src/patch.py lines 140-145) -/

/-- Value of one hex digit character, as Python `int(c, 16)` accepts it
(0-9, a-f, A-F). -/
def hexDigit (c : Char) : Option Nat :=
  if 48 ≤ c.toNat ∧ c.toNat ≤ 57 then some (c.toNat - 48)
  else if 97 ≤ c.toNat ∧ c.toNat ≤ 102 then some (c.toNat - 87)
  else if 65 ≤ c.toNat ∧ c.toNat ≤ 70 then some (c.toNat - 55)
  else none

def parseHexAux : List Char → Nat → Option Nat
  | [], acc => some acc
  | c :: cs, acc => do
    let d ← hexDigit c
    parseHexAux cs (acc * 16 + d)

/-- Python `int(s, 16)` restricted to plain strings of hex digits (the
shape the patch filenames carry); any other character, or an empty
string, raises ValueError (`none`). -/
def parseHex (cs : List Char) : Option Nat :=
  match cs with
  | [] => none
  | _ => parseHexAux cs 0

/-- The inner copy loop (lines 144-145): `for i in range(len(data)):
rom[offset + i] = data[i]`. -/
def write_fragment : List Nat → List Nat → Nat → Option (List Nat)
  | rom, [], _ => some rom
  | rom, b :: rest, offset => do
    let rom1 ← byteSet rom offset (b : Int)
    write_fragment rom1 rest (offset + 1)

/-- One iteration of the patch-apply loop (lines 141-145): decode the
destination offset from characters 13..17 of the fragment filename
(`int(patch_filename[13:18], 16)`), then copy the fragment bytes into
the buffer at that offset. -/
def merge_fragment (rom : List Nat) (patch_filename : List Char)
    (data : List Nat) : Option (List Nat) := do
  let offset ← parseHex ((patch_filename.drop 13).take 5)
  write_fragment rom data offset

/-! ## Concrete test buffers

Buffers of length 0x213f3 (the least length for which every index the
channel scan can touch, up to 0x213f2, exists), zero except for one
planted `ld ix, 0xe034` instruction encoding `dd 21 34 e0`. -/

/-- The four instruction bytes planted at offset 0x20000. -/
def chanBufA : List Nat :=
  List.replicate 0x20000 0 ++ ([0xdd, 0x21, 0x34, 0xe0] ++
    List.replicate 0x13ef 0)

/-- The four instruction bytes planted at offset 0x20daa, the first
entry of `PATCH_IGNORE_LIST`. -/
def chanBufB : List Nat :=
  List.replicate 0x20daa 0 ++ ([0xdd, 0x21, 0x34, 0xe0] ++
    List.replicate 0x645 0)

/-- What the channel scan produces from `chanBufA`: the planted
instruction operand 0xe034 relocated to 0xee34. -/
def chanBufApatched : List Nat := (chanBufA.set 0x20002 0x34).set 0x20003 0xee

/-- What the channel scan produces from `chanBufB`: the operand bytes at
0x20dac-0x20dad rewritten by the overlapping match at 0x20dab. -/
def chanBufBpatched : List Nat := (chanBufB.set 0x20dac 0x34).set 0x20dad 0xee

/-- ASCII lowercasing of a string, used to state case-insensitive
comparison of hex digests. -/
def strLower (s : String) : String :=
  String.mk (s.data.map fun c =>
    if 65 ≤ c.toNat ∧ c.toNat ≤ 90 then Char.ofNat (c.toNat + 32) else c)

/-! # Lemmas: byteSet and offset_address -/

theorem byteSet_some (rom : List Nat) (i : Nat) (v : Int)
    (hi : i < rom.length) (h0 : 0 ≤ v) (h1 : v < 256) :
    byteSet rom i v = some (rom.set i v.toNat) := by
  rw [byteSet, if_pos ⟨hi, h0, h1⟩]

theorem byteSet_none_neg (rom : List Nat) (i : Nat) (v : Int)
    (h : v < 0) : byteSet rom i v = none := by
  rw [byteSet, if_neg]
  rintro ⟨-, h0, -⟩
  omega

theorem byteSet_none_high (rom : List Nat) (i : Nat) (v : Int)
    (h : 256 ≤ v) : byteSet rom i v = none := by
  rw [byteSet, if_neg]
  rintro ⟨-, -, h1⟩
  omega

theorem offset_address_some (rom : List Nat) (i : Nat) (d : Int) (b0 b1 : Nat)
    (h0 : rom[i]? = some b0) (h1 : rom[i + 1]? = some b1)
    (hge : 0 ≤ (b0 : Int) + b1 * 256 + d)
    (hlt : (b0 : Int) + b1 * 256 + d < 65536) :
    offset_address rom i d =
      some ((rom.set i (((b0 : Int) + b1 * 256 + d).toNat % 256)).set (i + 1)
        (((b0 : Int) + b1 * 256 + d).toNat / 256)) := by
  have hi : i < rom.length := (List.getElem?_eq_some.mp h0).1
  have hi1 : i + 1 < rom.length := (List.getElem?_eq_some.mp h1).1
  set addr : Int := (b0 : Int) + b1 * 256 + d with haddr
  have hm0 : 0 ≤ addr % 256 := Int.emod_nonneg addr (by decide)
  have hm1 : addr % 256 < 256 := Int.emod_lt_of_pos addr (by decide)
  have hfd : addr.fdiv 256 = addr / 256 := Int.fdiv_eq_ediv addr (by decide)
  have hd0 : 0 ≤ addr / 256 := by omega
  have hd1 : addr / 256 < 256 := by omega
  have hset1 : i + 1 < (rom.set i (addr % 256).toNat).length := by
    simpa using hi1
  rw [offset_address, h0, h1]
  show (byteSet rom i (addr % 256)).bind _ = _
  rw [byteSet_some rom i _ hi hm0 hm1]
  show byteSet _ (i + 1) (addr.fdiv 256) = _
  rw [hfd, byteSet_some (rom.set i (addr % 256).toNat) (i + 1) (addr / 256)
    hset1 hd0 hd1]
  have e1 : (addr % 256).toNat = addr.toNat % 256 := by omega
  have e2 : (addr / 256).toNat = addr.toNat / 256 := by omega
  rw [e1, e2]

theorem offset_address_none (rom : List Nat) (i : Nat) (d : Int) (b0 b1 : Nat)
    (h0 : rom[i]? = some b0) (h1 : rom[i + 1]? = some b1)
    (hbad : (b0 : Int) + b1 * 256 + d < 0 ∨
      65536 ≤ (b0 : Int) + b1 * 256 + d) :
    offset_address rom i d = none := by
  have hi : i < rom.length := (List.getElem?_eq_some.mp h0).1
  set addr : Int := (b0 : Int) + b1 * 256 + d with haddr
  have hm0 : 0 ≤ addr % 256 := Int.emod_nonneg addr (by decide)
  have hm1 : addr % 256 < 256 := Int.emod_lt_of_pos addr (by decide)
  have hfd : addr.fdiv 256 = addr / 256 := Int.fdiv_eq_ediv addr (by decide)
  rw [offset_address, h0, h1]
  show (byteSet rom i (addr % 256)).bind _ = _
  rw [byteSet_some rom i _ hi hm0 hm1]
  show byteSet _ (i + 1) (addr.fdiv 256) = _
  rw [hfd]
  rcases hbad with hneg | hhigh
  · exact byteSet_none_neg _ _ _ (by omega)
  · exact byteSet_none_high _ _ _ (by omega)

theorem offset_address_inv (rom : List Nat) (i : Nat) (d : Int) (r : List Nat)
    (h : offset_address rom i d = some r) :
    ∃ b0 b1, rom[i]? = some b0 ∧ rom[i + 1]? = some b1 ∧
      0 ≤ (b0 : Int) + b1 * 256 + d ∧ (b0 : Int) + b1 * 256 + d < 65536 ∧
      r = (rom.set i (((b0 : Int) + b1 * 256 + d).toNat % 256)).set (i + 1)
        (((b0 : Int) + b1 * 256 + d).toNat / 256) := by
  cases h0 : rom[i]? with
  | none => rw [offset_address, h0] at h; cases h
  | some b0 =>
    cases h1 : rom[i + 1]? with
    | none =>
      rw [offset_address, h0, h1] at h
      cases h
    | some b1 =>
      by_cases hge : 0 ≤ (b0 : Int) + b1 * 256 + d
      · by_cases hlt : (b0 : Int) + b1 * 256 + d < 65536
        · rw [offset_address_some rom i d b0 b1 h0 h1 hge hlt] at h
          exact ⟨b0, b1, rfl, rfl, hge, hlt, (Option.some.inj h).symm⟩
        · rw [offset_address_none rom i d b0 b1 h0 h1 (Or.inr (by omega))] at h
          cases h
      · rw [offset_address_none rom i d b0 b1 h0 h1 (Or.inl (by omega))] at h
        cases h

theorem offset_address_some_spec (rom : List Nat) (i : Nat) (d : Int)
    (b0 b1 : Nat) (h0 : rom[i]? = some b0) (h1 : rom[i + 1]? = some b1)
    (hge : 0 ≤ (b0 : Int) + b1 * 256 + d)
    (hlt : (b0 : Int) + b1 * 256 + d < 65536) :
    ∃ r, offset_address rom i d = some r ∧ r.length = rom.length ∧
      r[i]? = some (((b0 : Int) + b1 * 256 + d).toNat % 256) ∧
      r[i + 1]? = some (((b0 : Int) + b1 * 256 + d).toNat / 256) ∧
      ∀ j, j ≠ i → j ≠ i + 1 → r[j]? = rom[j]? := by
  have hi : i < rom.length := (List.getElem?_eq_some.mp h0).1
  have hi1 : i + 1 < rom.length := (List.getElem?_eq_some.mp h1).1
  refine ⟨_, offset_address_some rom i d b0 b1 h0 h1 hge hlt, ?_, ?_, ?_, ?_⟩
  · simp [List.length_set]
  · rw [List.getElem?_set_ne (by omega), List.getElem?_set_self hi]
  · rw [List.getElem?_set_self (by simpa using hi1)]
  · intro j hji hji1
    rw [List.getElem?_set_ne (by omega), List.getElem?_set_ne (by omega)]

/-! # Claim C1 -/

/-- C1 counterexample: at buffer [0xff, 0xff], index 0 and delta 1 the
shifted 16-bit value is 0x10000; instead of writing its wrapped
little-endian encoding (bytes 0, 0), `offset_address` raises, because
`addr >> 8` is 256 and the high-byte store is out of byte range. -/
theorem C1_counterexample : offset_address [0xff, 0xff] 0 1 = none := by rfl

/-- C1 amended: when the sum a + delta of the little-endian value at i
and the delta stays within 0..0xFFFF, `offset_address` writes its
little-endian encoding (which equals (a + delta) mod 65536) at i and
i + 1 and leaves every other byte unchanged; when a + delta is negative
or exceeds 0xFFFF, the high-byte store `addr >> 8` is outside 0..255 and
the call raises instead of wrapping. -/
theorem C1_corrected (rom : List Nat) (i : Nat) (d : Int) (b0 b1 : Nat)
    (h0 : rom[i]? = some b0) (h1 : rom[i + 1]? = some b1) :
    (0 ≤ (b0 : Int) + b1 * 256 + d ∧ (b0 : Int) + b1 * 256 + d < 65536 →
      ∃ r, offset_address rom i d = some r ∧ r.length = rom.length ∧
        r[i]? = some (((b0 : Int) + b1 * 256 + d).toNat % 65536 % 256) ∧
        r[i + 1]? = some (((b0 : Int) + b1 * 256 + d).toNat % 65536 / 256) ∧
        ∀ j, j ≠ i → j ≠ i + 1 → r[j]? = rom[j]?) ∧
    ((b0 : Int) + b1 * 256 + d < 0 ∨ 65536 ≤ (b0 : Int) + b1 * 256 + d →
      offset_address rom i d = none) := by
  constructor
  · rintro ⟨hge, hlt⟩
    have e : ((b0 : Int) + b1 * 256 + d).toNat % 65536 =
        ((b0 : Int) + b1 * 256 + d).toNat := Nat.mod_eq_of_lt (by omega)
    rw [e]
    exact offset_address_some_spec rom i d b0 b1 h0 h1 hge hlt
  · exact offset_address_none rom i d b0 b1 h0 h1

/-- C1 witness: the in-range instance 0xe034 + 0x0e00 = 0xee34 at a
two-byte buffer. -/
theorem C1_witness :
    ∃ r, offset_address [0x34, 0xe0] 0 0x0e00 = some r ∧
      r.length = ([0x34, 0xe0] : List Nat).length ∧
      r[0]? = some (((0x34 : Int) + 0xe0 * 256 + 0x0e00).toNat % 65536 % 256) ∧
      r[1]? = some (((0x34 : Int) + 0xe0 * 256 + 0x0e00).toNat % 65536 / 256) ∧
      ∀ j, j ≠ 0 → j ≠ 1 → r[j]? = ([0x34, 0xe0] : List Nat)[j]? :=
  (C1_corrected [0x34, 0xe0] 0 0x0e00 0x34 0xe0 rfl rfl).1 ⟨by decide, by decide⟩

/-! # Claim C2 -/

/-- C2 counterexample: with buffer [0xff, 0xff], index 0 and delta 1 the
first `offset_address` raises (16-bit overflow), so applying it and then
applying it again with the negated delta does not restore the buffer. -/
theorem C2_counterexample :
    ((offset_address [0xff, 0xff] 0 1).bind fun r =>
      offset_address r 0 (-1)) ≠ some [0xff, 0xff] := by decide

/-- C2 amended: whenever the first relocation succeeds (the shifted
16-bit value stays in 0..0xFFFF), relocating again at the same index
with the negated delta succeeds and restores the buffer byte for byte. -/
theorem C2_corrected (rom : List Nat) (i : Nat) (d : Int) (r : List Nat)
    (hbytes : ∀ b ∈ rom, b < 256)
    (h : offset_address rom i d = some r) :
    offset_address r i (-d) = some rom := by
  obtain ⟨b0, b1, h0, h1, hge, hlt, hr⟩ := offset_address_inv rom i d r h
  have hi : i < rom.length := (List.getElem?_eq_some.mp h0).1
  have hi1 : i + 1 < rom.length := (List.getElem?_eq_some.mp h1).1
  have hb0 : b0 < 256 := hbytes b0 (List.getElem?_mem h0)
  have hb1 : b1 < 256 := hbytes b1 (List.getElem?_mem h1)
  set A : Nat := ((b0 : Int) + b1 * 256 + d).toNat with hA
  have hAd : (A : Int) = (b0 : Int) + b1 * 256 + d := by omega
  have h0r : r[i]? = some (A % 256) := by
    rw [hr, List.getElem?_set_ne (by omega), List.getElem?_set_self hi]
  have h1r : r[i + 1]? = some (A / 256) := by
    rw [hr, List.getElem?_set_self (by simpa using hi1)]
  have haddr2 : ((A % 256 : Nat) : Int) + (A / 256 : Nat) * 256 + (-d) =
      (b0 : Int) + b1 * 256 := by omega
  rw [offset_address_some r i (-d) (A % 256) (A / 256) h0r h1r
    (by rw [haddr2]; positivity) (by rw [haddr2]; omega)]
  congr 1
  have eA : (((A % 256 : Nat) : Int) + (A / 256 : Nat) * 256 + (-d)).toNat =
      b0 + 256 * b1 := by omega
  rw [eA]
  have elo : (b0 + 256 * b1) % 256 = b0 := by omega
  have ehi : (b0 + 256 * b1) / 256 = b1 := by omega
  rw [elo, ehi]
  apply List.ext_getElem?
  intro j
  by_cases hji : j = i
  · subst hji
    rw [List.getElem?_set_ne (by omega), List.getElem?_set_self (by simp [hr, hi]),
      h0]
  · by_cases hji1 : j = i + 1
    · subst hji1
      rw [List.getElem?_set_self (by simp [hr]; simpa using hi1), h1]
    · rw [List.getElem?_set_ne (by omega), List.getElem?_set_ne (by omega), hr,
        List.getElem?_set_ne (by omega), List.getElem?_set_ne (by omega)]

/-- C2 witness: relocating [0x34, 0xe0] by +0x0e00 gives [0x34, 0xee];
relocating that by -0x0e00 restores [0x34, 0xe0]. -/
theorem C2_witness : offset_address [0x34, 0xee] 0 (-0x0e00) = some [0x34, 0xe0] :=
  C2_corrected [0x34, 0xe0] 0 0x0e00 [0x34, 0xee] (by decide) (by rfl)

/-! # Lemmas: patch_mapper -/

theorem patch_mapper_step_length (rom : List Nat) (o : Nat) :
    (patch_mapper_step rom o).length = rom.length := by
  unfold patch_mapper_step
  split <;> simp

theorem patch_mapper_go_length (fuel : Nat) : ∀ (rom : List Nat) (o : Nat),
    (patch_mapper_go rom fuel o).length = rom.length := by
  induction fuel with
  | zero => intro rom o; rfl
  | succ n ih =>
    intro rom o
    simp only [patch_mapper_go]
    rw [ih, patch_mapper_step_length]

theorem patch_mapper_step_getElem?_ne (rom : List Nat) (o j : Nat)
    (h : j ≠ o + 2) : (patch_mapper_step rom o)[j]? = rom[j]? := by
  unfold patch_mapper_step
  split
  · rw [List.getElem?_set_ne (by omega)]
  · rfl

theorem patch_mapper_go_getElem?_lt (fuel : Nat) :
    ∀ (rom : List Nat) (o j : Nat), j < o + 2 →
      (patch_mapper_go rom fuel o)[j]? = rom[j]? := by
  induction fuel with
  | zero => intro rom o j _; rfl
  | succ n ih =>
    intro rom o j h
    simp only [patch_mapper_go]
    rw [ih (patch_mapper_step rom o) (o + 1) j (by omega),
      patch_mapper_step_getElem?_ne rom o j (by omega)]

theorem mapperMatch_congr (rom1 rom2 : List Nat) (o : Nat)
    (h0 : rom1[o]? = rom2[o]?) (h1 : rom1[o + 1]? = rom2[o + 1]?)
    (h2 : rom1[o + 2]? = rom2[o + 2]?) :
    mapperMatch rom1 o = mapperMatch rom2 o := by
  unfold mapperMatch
  rw [h0, h1, h2]

theorem mapperMatch_elim (rom : List Nat) (o : Nat)
    (h : mapperMatch rom o = true) :
    rom[o]? = some 0x32 ∧ rom[o + 1]? = some 0x00 ∧
      ∃ b2, rom[o + 2]? = some b2 ∧ (b2 = 0x60 ∨ b2 = 0x80 ∨ b2 = 0xa0) := by
  simp only [mapperMatch, Bool.and_eq_true, Bool.or_eq_true, beq_iff_eq] at h
  obtain ⟨⟨h0, h1⟩, h2⟩ := h
  refine ⟨h0, h1, ?_⟩
  rcases h2 with (h2 | h2) | h2
  · exact ⟨0x60, h2, Or.inl rfl⟩
  · exact ⟨0x80, h2, Or.inr (Or.inl rfl)⟩
  · exact ⟨0xa0, h2, Or.inr (Or.inr rfl)⟩

theorem mapperMatch_step_self (rom : List Nat) (o : Nat) :
    mapperMatch (patch_mapper_step rom o) o = false := by
  cases hm : mapperMatch rom o with
  | false => rw [patch_mapper_step, if_neg (by simp [hm]), hm]
  | true =>
    obtain ⟨h0, h1, b2, hb2e, hb2v⟩ := mapperMatch_elim rom o hm
    have hlen : o + 2 < rom.length := (List.getElem?_eq_some.mp hb2e).1
    have hgetD : rom.getD (o + 2) 0 = b2 := by
      rw [List.getD_eq_getElem?_getD, hb2e]
      rfl
    rw [patch_mapper_step, if_pos hm, hgetD]
    simp only [mapperMatch, List.getElem?_set_ne (by omega : o + 2 ≠ o),
      List.getElem?_set_ne (by omega : o + 2 ≠ o + 1),
      List.getElem?_set_self hlen, h0, h1]
    rcases hb2v with rfl | rfl | rfl <;> rfl

theorem patch_mapper_go_of_nomatch (fuel : Nat) :
    ∀ (rom : List Nat) (o : Nat),
      (∀ k, k < fuel → mapperMatch rom (o + k) = false) →
      patch_mapper_go rom fuel o = rom := by
  induction fuel with
  | zero => intro rom o _; rfl
  | succ n ih =>
    intro rom o h
    have h0 : mapperMatch rom o = false := by simpa using h 0 (by omega)
    have hstep : patch_mapper_step rom o = rom := by
      rw [patch_mapper_step, if_neg (by simp [h0])]
    simp only [patch_mapper_go]
    rw [hstep]
    refine ih rom (o + 1) fun k hk => ?_
    have e : o + (k + 1) = o + 1 + k := by omega
    have := h (k + 1) (by omega)
    rwa [e] at this

theorem patch_mapper_go_nomatch_processed (fuel : Nat) :
    ∀ (rom : List Nat) (o k : Nat), k < fuel →
      mapperMatch (patch_mapper_go rom fuel o) (o + k) = false := by
  induction fuel with
  | zero => intro rom o k hk; omega
  | succ n ih =>
    intro rom o k hk
    simp only [patch_mapper_go]
    cases k with
    | zero =>
      have e0 := patch_mapper_go_getElem?_lt n (patch_mapper_step rom o)
        (o + 1) o (by omega)
      have e1 := patch_mapper_go_getElem?_lt n (patch_mapper_step rom o)
        (o + 1) (o + 1) (by omega)
      have e2 := patch_mapper_go_getElem?_lt n (patch_mapper_step rom o)
        (o + 1) (o + 2) (by omega)
      have key : mapperMatch (patch_mapper_go (patch_mapper_step rom o) n
          (o + 1)) o = false := by
        rw [mapperMatch_congr _ _ o e0 e1 e2]
        exact mapperMatch_step_self rom o
      simpa using key
    | succ m =>
      have e : o + (m + 1) = o + 1 + m := by omega
      rw [e]
      exact ih (patch_mapper_step rom o) (o + 1) m (by omega)

theorem patch_mapper_fixes (rom : List Nat) (o : Nat)
    (h : o < rom.length - 2) : mapperMatch (patch_mapper rom) o = false := by
  have := patch_mapper_go_nomatch_processed (rom.length - 2) rom 0 o h
  simpa using this

theorem patch_mapper_go_match (fuel : Nat) :
    ∀ (rom : List Nat) (off o : Nat), off ≤ o → o < off + fuel →
      mapperMatch rom o = true →
      (patch_mapper_go rom fuel off)[o]? = rom[o]? ∧
      (patch_mapper_go rom fuel off)[o + 1]? = rom[o + 1]? ∧
      (patch_mapper_go rom fuel off)[o + 2]? = (rom[o + 2]?).map (· + 0x10) := by
  induction fuel with
  | zero => intro rom off o h1 h2 _; omega
  | succ n ih =>
    intro rom off o h1 h2 hm
    simp only [patch_mapper_go]
    rcases Nat.eq_or_lt_of_le h1 with rfl | hlt
    · obtain ⟨h0, hp1, b2, hb2e, hb2v⟩ := mapperMatch_elim rom off hm
      have hlen : off + 2 < rom.length := (List.getElem?_eq_some.mp hb2e).1
      have hgetD : rom.getD (off + 2) 0 = b2 := by
        rw [List.getD_eq_getElem?_getD, hb2e]
        rfl
      refine ⟨?_, ?_, ?_⟩
      · rw [patch_mapper_go_getElem?_lt n _ (off + 1) off (by omega),
          patch_mapper_step_getElem?_ne rom off off (by omega)]
      · rw [patch_mapper_go_getElem?_lt n _ (off + 1) (off + 1) (by omega),
          patch_mapper_step_getElem?_ne rom off (off + 1) (by omega)]
      · rw [patch_mapper_go_getElem?_lt n _ (off + 1) (off + 2) (by omega),
          patch_mapper_step, if_pos hm, hgetD,
          List.getElem?_set_self hlen, hb2e]
        rfl
    · have hstep : ∀ j, o ≤ j → (patch_mapper_step rom off)[j]? = rom[j]? := by
        intro j hj
        by_cases hj2 : j = off + 2
        · by_cases hfire : mapperMatch rom off = true
          · exfalso
            obtain ⟨-, -, b2, fb2e, fb2v⟩ := mapperMatch_elim rom off hfire
            obtain ⟨m0, m1, -⟩ := mapperMatch_elim rom o hm
            have he : off + 2 = o ∨ off + 2 = o + 1 := by omega
            rcases he with he | he
            · rw [he, m0] at fb2e
              simp at fb2e
              omega
            · rw [he, m1] at fb2e
              simp at fb2e
              omega
          · rw [patch_mapper_step, if_neg (by simpa using hfire)]
        · exact patch_mapper_step_getElem?_ne rom off j hj2
      have hm' : mapperMatch (patch_mapper_step rom off) o = true := by
        rw [mapperMatch_congr _ rom o (hstep o le_rfl) (hstep (o + 1) (by omega))
          (hstep (o + 2) (by omega))]
        exact hm
      obtain ⟨r0, r1, r2⟩ := ih (patch_mapper_step rom off) (off + 1) o hlt
        (by omega) hm'
      exact ⟨by rw [r0, hstep o le_rfl], by rw [r1, hstep (o + 1) (by omega)],
        by rw [r2, hstep (o + 2) (by omega)]⟩

/-! # Claim C3 -/

/-- C3 counterexample: [0x32, 0x00, 0x60] has one mapper-select match;
the first run of `patch_mapper` rewrites the operand byte to 0x70, and
the second run changes nothing (0x70 is not in the match set), so
re-running does not double-apply the increment. -/
theorem C3_counterexample :
    mapperMatch [0x32, 0x00, 0x60] 0 = true ∧
    patch_mapper [0x32, 0x00, 0x60] = [0x32, 0x00, 0x70] ∧
    patch_mapper (patch_mapper [0x32, 0x00, 0x60]) =
      patch_mapper [0x32, 0x00, 0x60] := by decide

/-- C3 amended: `patch_mapper` is idempotent.  A single run rewrites
every matched operand byte from 0x60/0x80/0xa0 to 0x70/0x90/0xb0, none
of which is in the match set again, so after one run no offset matches
and a second run without reload changes nothing. -/
theorem C3_corrected (rom : List Nat) :
    patch_mapper (patch_mapper rom) = patch_mapper rom := by
  have hlen : (patch_mapper rom).length = rom.length :=
    patch_mapper_go_length _ rom 0
  show patch_mapper_go (patch_mapper rom) ((patch_mapper rom).length - 2) 0 =
    patch_mapper rom
  rw [hlen]
  refine patch_mapper_go_of_nomatch (rom.length - 2) (patch_mapper rom) 0
    fun k hk => ?_
  simpa using patch_mapper_fixes rom k (by omega)

/-! # Claim C9 -/

/-- C9: for every offset where the buffer holds the mapper-select
pattern 0x32, 0x00, b with b in the match set, one run of `patch_mapper`
leaves the two pattern bytes unchanged and increments the operand byte
by exactly 0x10. -/
theorem C9_confirmed (rom : List Nat) (o : Nat)
    (h : mapperMatch rom o = true) :
    (patch_mapper rom)[o]? = rom[o]? ∧
    (patch_mapper rom)[o + 1]? = rom[o + 1]? ∧
    (patch_mapper rom)[o + 2]? = (rom[o + 2]?).map (· + 0x10) := by
  obtain ⟨-, -, b2, hb2e, -⟩ := mapperMatch_elim rom o h
  have hlen : o + 2 < rom.length := (List.getElem?_eq_some.mp hb2e).1
  have := patch_mapper_go_match (rom.length - 2) rom 0 o (by omega) (by omega) h
  simpa using this

/-- C9 witness: the spec instance [0x32, 0x00, 0x60], whose operand byte
becomes 0x70 while the two pattern bytes stay. -/
theorem C9_witness :
    (patch_mapper [0x32, 0x00, 0x60])[0]? = ([0x32, 0x00, 0x60] : List Nat)[0]? ∧
    (patch_mapper [0x32, 0x00, 0x60])[0 + 1]? =
      ([0x32, 0x00, 0x60] : List Nat)[0 + 1]? ∧
    (patch_mapper [0x32, 0x00, 0x60])[0 + 2]? =
      (([0x32, 0x00, 0x60] : List Nat)[0 + 2]?).map (· + 0x10) :=
  C9_confirmed [0x32, 0x00, 0x60] 0 (by decide)

/-! # Claim C4 -/

set_option maxRecDepth 400000 in
/-- C4 counterexample: the MD5 hex digest of the empty buffer equals the
uppercase expected string up to ASCII letter case, yet `check_hash`
raises: the comparison `h == expected_hash` is exact, and `hexdigest`
produces lowercase hex. -/
theorem C4_counterexample :
    strLower "D41D8CD98F00B204E9800998ECF8427E" = md5_hexdigest [] ∧
    check_hash [] "D41D8CD98F00B204E9800998ECF8427E" =
      Except.error "Incorrect hash. Are you using the right ROM?" :=
  ⟨by rfl, by rfl⟩

/-- C4 amended: `check_hash` compares the digest case sensitively:
verification succeeds exactly when the expected string equals the
computed (lowercase) hex digest character for character, so an expected
value written in uppercase hex fails even though it matches ignoring
case. -/
theorem C4_corrected (data : List Nat) (expected_hash : String) :
    check_hash data expected_hash = Except.ok () ↔
      md5_hexdigest data = expected_hash := by
  unfold check_hash
  split <;> simp_all

/-! # Claim C5 -/

/-- C5: for any buffer whose MD5 hex digest differs from the expected
string, `check_hash` raises; and in the pipeline both digest checks run
before the buffer is composed or mutated, so when either check fails the
pipeline prefix aborts with the hash error and produces no buffer. -/
theorem C5_confirmed (data vkiller_rom scc_rom : List Nat) (expected : String)
    (hd : md5_hexdigest data ≠ expected)
    (hp : md5_hexdigest vkiller_rom ≠ "66da3107684286d1eba45efb8eae9113" ∨
      md5_hexdigest ((scc_rom.drop 0x14000).take 0x6000) ≠
        "61c33112a5a2cefd1df81dc1434aa42a") :
    check_hash data expected =
      Except.error "Incorrect hash. Are you using the right ROM?" ∧
    pipeline_prefix vkiller_rom scc_rom =
      Except.error "Incorrect hash. Are you using the right ROM?" := by
  constructor
  · unfold check_hash
    rw [if_neg hd]
  · unfold pipeline_prefix check_hash
    rcases hp with h | h
    · rw [if_neg h]
      rfl
    · by_cases h1 :
        md5_hexdigest vkiller_rom = "66da3107684286d1eba45efb8eae9113"
      · rw [if_pos h1, if_neg h]
        rfl
      · rw [if_neg h1]
        rfl

set_option maxRecDepth 400000 in
/-- C5 witness: the empty buffer has digest d41d8cd9... which matches
neither expected value, so the pipeline prefix aborts with the hash
error. -/
theorem C5_witness :
    check_hash [] "66da3107684286d1eba45efb8eae9113" =
      Except.error "Incorrect hash. Are you using the right ROM?" ∧
    pipeline_prefix [] [] =
      Except.error "Incorrect hash. Are you using the right ROM?" :=
  C5_confirmed [] [] [] "66da3107684286d1eba45efb8eae9113" (by decide)
    (Or.inl (by decide))

/-! # Claim C7 -/

theorem write_fragment_spec (data : List Nat) : ∀ (rom : List Nat) (o : Nat),
    (∀ b ∈ data, b < 256) → o + data.length ≤ rom.length →
    ∃ r, write_fragment rom data o = some r ∧ r.length = rom.length ∧
      (∀ j, o ≤ j → j < o + data.length → r[j]? = data[j - o]?) ∧
      (∀ j, j < o ∨ o + data.length ≤ j → r[j]? = rom[j]?) := by
  induction data with
  | nil =>
    intro rom o _ _
    refine ⟨rom, rfl, rfl, fun j h1 h2 => ?_, fun j _ => rfl⟩
    simp only [List.length_nil] at h2
    omega
  | cons b rest ih =>
    intro rom o hb hlen
    have hblt : b < 256 := hb b (List.mem_cons_self b rest)
    have ho : o < rom.length := by
      simp only [List.length_cons] at hlen
      omega
    have hbs : byteSet rom o (b : Int) = some (rom.set o b) := by
      have h := byteSet_some rom o (b : Int) ho (by positivity)
        (by exact_mod_cast hblt)
      simpa using h
    obtain ⟨r, hr, hrl, hin, hout⟩ := ih (rom.set o b) (o + 1)
      (fun x hx => hb x (List.mem_cons_of_mem b hx))
      (by simp only [List.length_set, List.length_cons] at hlen ⊢; omega)
    refine ⟨r, ?_, by rw [hrl, List.length_set], ?_, ?_⟩
    · show (byteSet rom o (b : Int)).bind _ = some r
      rw [hbs]
      exact hr
    · intro j h1 h2
      rcases Nat.eq_or_lt_of_le h1 with rfl | hgt
      · rw [hout o (Or.inl (by omega)), List.getElem?_set_self ho]
        simp
      · have e : j - o = (j - (o + 1)) + 1 := by omega
        rw [hin j (by omega)
          (by simp only [List.length_cons] at h2 ⊢; omega), e,
          List.getElem?_cons_succ]
    · intro j hj
      have hj1 : j < o + 1 ∨ o + 1 + rest.length ≤ j := by
        simp only [List.length_cons] at hj
        omega
      have hjo : j ≠ o := by
        simp only [List.length_cons] at hj
        omega
      rw [hout j hj1, List.getElem?_set_ne (by omega)]

theorem write_fragment_one (rom : List Nat) (o b : Nat)
    (hb : b < 256) (ho : o < rom.length) :
    write_fragment rom [b] o = some (rom.set o b) := by
  show (byteSet rom o ((b : Nat) : Int)).bind _ = _
  rw [byteSet_some rom o _ ho (by positivity) (by exact_mod_cast hb)]
  show some (rom.set o (((b : Nat) : Int)).toNat) = _
  rw [Int.toNat_natCast]

/-- C7 counterexample: a fragment whose filename embeds the six digits
01a3f0 is decoded from filename characters 13..17 only, giving offset
0x01a3f, not 0x1a3f0: the merge succeeds and changes the byte at
0x01a3f, which lies outside the claimed range starting at 0x1a3f0. -/
theorem C7_counterexample :
    ∃ r, merge_fragment (List.replicate 10000 7)
        ("vkiller_patch01a3f0.bin".toList) [1] = some r ∧
      r[0x01a3f]? = some 1 ∧
      (List.replicate 10000 7 : List Nat)[0x01a3f]? = some 7 ∧
      0x01a3f < 0x1a3f0 := by
  have hlen10 : 0x01a3f < (List.replicate 10000 (7 : Nat)).length := by
    rw [List.length_replicate]
    omega
  have hwf : write_fragment (List.replicate 10000 7) [1] 0x01a3f =
      some ((List.replicate 10000 7).set 0x01a3f 1) :=
    write_fragment_one (List.replicate 10000 7) 0x01a3f 1 (by decide) hlen10
  refine ⟨(List.replicate 10000 7).set 0x01a3f 1, ?_, ?_, ?_, by decide⟩
  · show (parseHex (("vkiller_patch01a3f0.bin".toList.drop 13).take 5)).bind
      (fun offset => write_fragment (List.replicate 10000 7) [1] offset) = _
    rw [show parseHex (("vkiller_patch01a3f0.bin".toList.drop 13).take 5) =
      some 0x01a3f from rfl, Option.some_bind]
    exact hwf
  · rw [List.getElem?_set_self hlen10]
  · rw [List.getElem?_replicate, if_pos (by omega : (0x01a3f : Nat) < 10000)]

/-- C7 amended: under the naming convention prefix + 5-hex-digit-offset
+ suffix, the offset 0x1a3f0 is embedded as the five digits 1a3f0; then
the merge overwrites exactly len(fragment) consecutive bytes starting at
buffer index 0x1a3f0 and every byte outside that range is unchanged.  A
six-digit embedding such as 01a3f0 is mis-decoded (its last digit is
dropped), so the bytes land at 0x01a3f instead. -/
theorem C7_corrected (rom data : List Nat)
    (hb : ∀ b ∈ data, b < 256)
    (hlen : 0x1a3f0 + data.length ≤ rom.length) :
    ∃ r, merge_fragment rom ("vkiller_patch1a3f0.bin".toList) data = some r ∧
      r.length = rom.length ∧
      (∀ j, 0x1a3f0 ≤ j → j < 0x1a3f0 + data.length →
        r[j]? = data[j - 0x1a3f0]?) ∧
      (∀ j, j < 0x1a3f0 ∨ 0x1a3f0 + data.length ≤ j → r[j]? = rom[j]?) := by
  obtain ⟨r, hr, h1, h2, h3⟩ := write_fragment_spec data rom 0x1a3f0 hb hlen
  refine ⟨r, ?_, h1, h2, h3⟩
  show (parseHex (("vkiller_patch1a3f0.bin".toList.drop 13).take 5)).bind
    (fun offset => write_fragment rom data offset) = some r
  rw [show parseHex (("vkiller_patch1a3f0.bin".toList.drop 13).take 5) =
    some 0x1a3f0 from rfl]
  exact hr

/-- C7 witness: merging a one-byte fragment named with the five digits
1a3f0 into a zero buffer of length 0x1a3f1. -/
theorem C7_witness :
    ∃ r, merge_fragment (List.replicate 0x1a3f1 0)
        ("vkiller_patch1a3f0.bin".toList) [0xab] = some r ∧
      r.length = (List.replicate 0x1a3f1 (0 : Nat)).length ∧
      (∀ j, 0x1a3f0 ≤ j → j < 0x1a3f0 + ([0xab] : List Nat).length →
        r[j]? = ([0xab] : List Nat)[j - 0x1a3f0]?) ∧
      (∀ j, j < 0x1a3f0 ∨ 0x1a3f0 + ([0xab] : List Nat).length ≤ j →
        r[j]? = (List.replicate 0x1a3f1 (0 : Nat))[j]?) :=
  C7_corrected (List.replicate 0x1a3f1 0) [0xab] (by decide)
    (by simp only [List.length_replicate, List.length_cons, List.length_nil]
        omega)

/-! # Lemmas: the channel-location scan -/

theorem chanCond1_false_b0 (rom : List Nat) (o b : Nat)
    (hb : rom[o]? = some b) (hne : b ≠ 0xdd) :
    chanCond1 rom o = some false := by
  unfold chanCond1
  simp only [Option.bind_eq_bind]
  rw [hb, Option.some_bind, if_neg hne]
  rfl

theorem chanCond1_true (rom : List Nat) (o b3 : Nat)
    (h0 : rom[o]? = some 0xdd) (h1 : rom[o + 1]? = some 0x21)
    (h3 : rom[o + 3]? = some b3) (hm : (b3 &&& 0xfc == 0xe0) = true) :
    chanCond1 rom o = some true := by
  unfold chanCond1
  simp only [Option.bind_eq_bind]
  rw [h0, Option.some_bind, if_pos rfl, h1, Option.some_bind, if_pos rfl, h3,
    Option.some_bind, hm]
  rfl

theorem chanCond2_false_b0 (rom : List Nat) (o b : Nat)
    (hb : rom[o]? = some b) (hne : b ∉ CHAN_OPCODES) :
    chanCond2 rom o = some false := by
  unfold chanCond2
  simp only [Option.bind_eq_bind]
  rw [hb, Option.some_bind, if_neg hne]
  rfl

theorem chanCond2_false_mask (rom : List Nat) (o b b2 : Nat)
    (hb : rom[o]? = some b) (hb2 : rom[o + 2]? = some b2)
    (hm : (b2 &&& 0xfc == 0xe0) = false) :
    chanCond2 rom o = some false := by
  unfold chanCond2
  simp only [Option.bind_eq_bind]
  rw [hb, Option.some_bind]
  by_cases hmem : b ∈ CHAN_OPCODES
  · rw [if_pos hmem, hb2, Option.some_bind, hm]
    rfl
  · rw [if_neg hmem]
    rfl

theorem chanCond2_true (rom : List Nat) (o b b2 : Nat)
    (hb : rom[o]? = some b) (hmem : b ∈ CHAN_OPCODES)
    (hb2 : rom[o + 2]? = some b2) (hm : (b2 &&& 0xfc == 0xe0) = true) :
    chanCond2 rom o = some true := by
  unfold chanCond2
  simp only [Option.bind_eq_bind]
  rw [hb, Option.some_bind, if_pos hmem, hb2, Option.some_bind, hm]
  rfl

theorem channel_step_ignored (rom : List Nat) (o : Nat)
    (h : o ∈ PATCH_IGNORE_LIST) : channel_step rom o = some rom := by
  rw [channel_step, if_pos h]

theorem channel_step_skip (rom : List Nat) (o : Nat)
    (h1 : chanCond1 rom o = some false) (h2 : chanCond2 rom o = some false) :
    channel_step rom o = some rom := by
  unfold channel_step
  split
  · rfl
  · simp only [Option.bind_eq_bind]
    rw [h1, Option.some_bind, if_neg (by simp : ¬false = true),
      Option.some_bind, h2, Option.some_bind, if_neg (by simp : ¬false = true)]

theorem channel_go_skip (fuel : Nat) : ∀ (rom : List Nat) (o : Nat),
    (∀ k, k < fuel → channel_step rom (o + k) = some rom) →
    channel_go rom fuel o = some rom := by
  induction fuel with
  | zero => intro rom o _; rfl
  | succ n ih =>
    intro rom o h
    have h0 : channel_step rom o = some rom := by simpa using h 0 (by omega)
    simp only [channel_go, Option.bind_eq_bind]
    rw [h0, Option.some_bind]
    refine ih rom (o + 1) fun k hk => ?_
    have e : o + (k + 1) = o + 1 + k := by omega
    have := h (k + 1) (by omega)
    rwa [e] at this

theorem channel_go_one (rom : List Nat) (o : Nat) :
    channel_go rom 1 o = channel_step rom o := by
  simp only [channel_go]
  cases channel_step rom o <;> rfl

theorem channel_go_append (f1 : Nat) : ∀ (f2 : Nat) (rom : List Nat) (o : Nat),
    channel_go rom (f1 + f2) o =
      (channel_go rom f1 o).bind fun r => channel_go r f2 (o + f1) := by
  induction f1 with
  | zero =>
    intro f2 rom o
    simp only [Nat.zero_add, Nat.add_zero, channel_go, Option.some_bind]
  | succ n ih =>
    intro f2 rom o
    have e : n + 1 + f2 = (n + f2) + 1 := by omega
    rw [e]
    simp only [channel_go, Option.bind_eq_bind]
    cases hs : channel_step rom o with
    | none => simp
    | some r1 =>
      simp only [Option.some_bind]
      rw [ih f2 r1 (o + 1)]
      have e2 : o + 1 + n = o + (n + 1) := by omega
      rw [e2]

theorem pad3_lo (p q j : Nat) (pat : List Nat) (h : j < p) :
    (List.replicate p 0 ++ (pat ++ List.replicate q 0))[j]? = some 0 := by
  rw [List.getElem?_append, List.length_replicate, if_pos h,
    List.getElem?_replicate, if_pos h]

theorem pad3_mid (p q j : Nat) (pat : List Nat) (h1 : p ≤ j)
    (h2 : j < p + pat.length) :
    (List.replicate p 0 ++ (pat ++ List.replicate q 0))[j]? = pat[j - p]? := by
  rw [List.getElem?_append, List.length_replicate, if_neg (by omega),
    List.getElem?_append, if_pos (by omega)]

theorem pad3_hi (p q j : Nat) (pat : List Nat) (h1 : p + pat.length ≤ j)
    (h2 : j < p + pat.length + q) :
    (List.replicate p 0 ++ (pat ++ List.replicate q 0))[j]? = some 0 := by
  rw [List.getElem?_append, List.length_replicate, if_neg (by omega),
    List.getElem?_append, if_neg (by omega), List.getElem?_replicate,
    if_pos (by omega)]

/-! # The channel-scan steps that fire on the planted pattern -/

theorem channel_step_patch1 (rom : List Nat) (o : Nat)
    (hig : o ∉ PATCH_IGNORE_LIST)
    (h0 : rom[o]? = some 0xdd) (h1 : rom[o + 1]? = some 0x21)
    (h2 : rom[o + 2]? = some 0x34) (h3 : rom[o + 3]? = some 0xe0) :
    channel_step rom o = some ((rom.set (o + 2) 0x34).set (o + 3) 0xee) := by
  have h3' : rom[o + 2 + 1]? = some 0xe0 := by
    rw [show o + 2 + 1 = o + 3 from by omega]
    exact h3
  have hoa := offset_address_some rom (o + 2) CHANNEL_OFFSET 0x34 0xe0 h2 h3'
    (by norm_num [CHANNEL_OFFSET]) (by norm_num [CHANNEL_OFFSET])
  rw [show (((0x34 : Nat) : Int) + ((0xe0 : Nat) : Int) * 256 +
      CHANNEL_OFFSET).toNat % 256 = 0x34 from by decide,
    show (((0x34 : Nat) : Int) + ((0xe0 : Nat) : Int) * 256 +
      CHANNEL_OFFSET).toNat / 256 = 0xee from by decide,
    show o + 2 + 1 = o + 3 from by omega] at hoa
  unfold channel_step
  rw [if_neg hig]
  simp only [Option.bind_eq_bind]
  rw [chanCond1_true rom o 0xe0 h0 h1 h3 (by decide), Option.some_bind,
    if_pos rfl, hoa, Option.some_bind,
    chanCond2_false_b0 _ o 0xdd (by
      rw [List.getElem?_set_ne (by omega), List.getElem?_set_ne (by omega)]
      exact h0) (by decide),
    Option.some_bind, if_neg (by simp : ¬false = true)]

theorem channel_step_patch2 (rom : List Nat) (o : Nat)
    (hig : o ∉ PATCH_IGNORE_LIST)
    (h0 : rom[o]? = some 0x21)
    (h1 : rom[o + 1]? = some 0x34) (h2 : rom[o + 2]? = some 0xe0) :
    channel_step rom o = some ((rom.set (o + 1) 0x34).set (o + 2) 0xee) := by
  have h2' : rom[o + 1 + 1]? = some 0xe0 := by
    rw [show o + 1 + 1 = o + 2 from by omega]
    exact h2
  have hoa := offset_address_some rom (o + 1) CHANNEL_OFFSET 0x34 0xe0 h1 h2'
    (by norm_num [CHANNEL_OFFSET]) (by norm_num [CHANNEL_OFFSET])
  rw [show (((0x34 : Nat) : Int) + ((0xe0 : Nat) : Int) * 256 +
      CHANNEL_OFFSET).toNat % 256 = 0x34 from by decide,
    show (((0x34 : Nat) : Int) + ((0xe0 : Nat) : Int) * 256 +
      CHANNEL_OFFSET).toNat / 256 = 0xee from by decide,
    show o + 1 + 1 = o + 2 from by omega] at hoa
  unfold channel_step
  rw [if_neg hig]
  simp only [Option.bind_eq_bind]
  rw [chanCond1_false_b0 rom o 0x21 h0 (by decide), Option.some_bind,
    if_neg (by simp : ¬false = true), Option.some_bind,
    chanCond2_true rom o 0x21 0xe0 h0 (by decide) h2 (by decide),
    Option.some_bind, if_pos rfl, hoa]

/-! # Elements and length of chanBufA -/

theorem chanBufA_length : chanBufA.length = 0x213f3 := by
  unfold chanBufA
  simp only [List.length_append, List.length_replicate, List.length_cons,
    List.length_nil]

theorem chanBufA_lo (j : Nat) (h : j < 0x20000) : chanBufA[j]? = some 0 := by
  unfold chanBufA
  exact pad3_lo _ _ _ _ h

theorem chanBufA_hi (j : Nat) (h1 : 0x20004 ≤ j) (h2 : j < 0x213f3) :
    chanBufA[j]? = some 0 := by
  unfold chanBufA
  have hl : ([0xdd, 0x21, 0x34, 0xe0] : List Nat).length = 4 := rfl
  exact pad3_hi _ _ _ _ (by rw [hl]; omega) (by rw [hl]; omega)

theorem chanBufA_pat (k : Nat) (hk : k < 4) :
    chanBufA[0x20000 + k]? = ([0xdd, 0x21, 0x34, 0xe0] : List Nat)[k]? := by
  unfold chanBufA
  have hl : ([0xdd, 0x21, 0x34, 0xe0] : List Nat).length = 4 := rfl
  rw [pad3_mid _ _ _ _ (by omega) (by rw [hl]; omega),
    show 0x20000 + k - 0x20000 = k from by omega]

theorem chanBufA_p0 : chanBufA[0x20000]? = some 0xdd := by
  have h := chanBufA_pat 0 (by omega)
  rw [show (0x20000 + 0 : Nat) = 0x20000 from rfl] at h
  exact h.trans rfl

theorem chanBufA_p1 : chanBufA[0x20001]? = some 0x21 := by
  have h := chanBufA_pat 1 (by omega)
  rw [show (0x20000 + 1 : Nat) = 0x20001 from rfl] at h
  exact h.trans rfl

theorem chanBufA_p2 : chanBufA[0x20002]? = some 0x34 := by
  have h := chanBufA_pat 2 (by omega)
  rw [show (0x20000 + 2 : Nat) = 0x20002 from rfl] at h
  exact h.trans rfl

theorem chanBufA_p3 : chanBufA[0x20003]? = some 0xe0 := by
  have h := chanBufA_pat 3 (by omega)
  rw [show (0x20000 + 3 : Nat) = 0x20003 from rfl] at h
  exact h.trans rfl

theorem chanBufApatched_frame (j : Nat) (h2 : j ≠ 0x20002)
    (h3 : j ≠ 0x20003) : chanBufApatched[j]? = chanBufA[j]? := by
  unfold chanBufApatched
  rw [List.getElem?_set_ne (by omega), List.getElem?_set_ne (by omega)]

theorem chanBufApatched_at2 : chanBufApatched[0x20002]? = some 0x34 := by
  unfold chanBufApatched
  rw [List.getElem?_set_ne (by omega),
    List.getElem?_set_self (by rw [chanBufA_length]; omega)]

theorem chanBufApatched_at3 : chanBufApatched[0x20003]? = some 0xee := by
  unfold chanBufApatched
  rw [List.getElem?_set_self
    (by rw [List.length_set, chanBufA_length]; omega)]

/-! # The full scan over chanBufA -/

theorem chanBufA_scan :
    patch_music_channel_locations chanBufA = some chanBufApatched := by
  have hstep : channel_step chanBufA 0x20000 = some chanBufApatched := by
    have h := channel_step_patch1 chanBufA 0x20000 (by decide) chanBufA_p0
      (show chanBufA[0x20000 + 1]? = some 0x21 from chanBufA_p1)
      (show chanBufA[0x20000 + 2]? = some 0x34 from chanBufA_p2)
      (show chanBufA[0x20000 + 3]? = some 0xe0 from chanBufA_p3)
    exact h
  have htail : channel_go chanBufApatched 0x13ef 0x20001 =
      some chanBufApatched := by
    refine channel_go_skip 0x13ef chanBufApatched 0x20001 fun k hk => ?_
    by_cases hk0 : k = 0
    · subst hk0
      exact channel_step_skip chanBufApatched (0x20001 + 0)
        (chanCond1_false_b0 _ _ 0x21
          (show chanBufApatched[0x20001 + 0]? = some 0x21 from by
            rw [show (0x20001 + 0 : Nat) = 0x20001 from rfl,
              chanBufApatched_frame _ (by omega) (by omega)]
            exact chanBufA_p1) (by decide))
        (chanCond2_false_mask _ _ 0x21 0xee
          (show chanBufApatched[0x20001 + 0]? = some 0x21 from by
            rw [show (0x20001 + 0 : Nat) = 0x20001 from rfl,
              chanBufApatched_frame _ (by omega) (by omega)]
            exact chanBufA_p1)
          (show chanBufApatched[0x20001 + 0 + 2]? = some 0xee from
            chanBufApatched_at3) (by decide))
    · by_cases hk1 : k = 1
      · subst hk1
        exact channel_step_skip chanBufApatched (0x20001 + 1)
          (chanCond1_false_b0 _ _ 0x34
            (show chanBufApatched[0x20001 + 1]? = some 0x34 from
              chanBufApatched_at2) (by decide))
          (chanCond2_false_b0 _ _ 0x34
            (show chanBufApatched[0x20001 + 1]? = some 0x34 from
              chanBufApatched_at2) (by decide))
      · by_cases hk2 : k = 2
        · subst hk2
          exact channel_step_skip chanBufApatched (0x20001 + 2)
            (chanCond1_false_b0 _ _ 0xee
              (show chanBufApatched[0x20001 + 2]? = some 0xee from
                chanBufApatched_at3) (by decide))
            (chanCond2_false_b0 _ _ 0xee
              (show chanBufApatched[0x20001 + 2]? = some 0xee from
                chanBufApatched_at3) (by decide))
        · have ho : chanBufApatched[0x20001 + k]? = some 0 := by
            rw [chanBufApatched_frame _ (by omega) (by omega)]
            exact chanBufA_hi (0x20001 + k) (by omega) (by omega)
          exact channel_step_skip chanBufApatched (0x20001 + k)
            (chanCond1_false_b0 _ _ 0 ho (by decide))
            (chanCond2_false_b0 _ _ 0 ho (by decide))
  unfold patch_music_channel_locations
  rw [show (0x213f0 - 0x20000 : Nat) = 1 + 0x13ef from rfl,
    channel_go_append 1 0x13ef chanBufA 0x20000, channel_go_one, hstep,
    Option.some_bind]
  exact htail

/-! # Claim C8 -/

/-- C8 counterexample: on the minimal four-byte buffer
[0xdd, 0x21, 0x34, 0xe0], `patch_music_channel_locations` raises
(IndexError) instead of patching: its scan range 0x20000..0x213ef is
hard coded, and the very first read rom[0x20000] is out of bounds. -/
theorem C8_counterexample :
    patch_music_channel_locations [0xdd, 0x21, 0x34, 0xe0] = none := by rfl

/-- C8 amended: with the same four bytes [0xdd, 0x21, 0x34, 0xe0] placed
at the start of the hard-coded scan range, offset 0x20000, inside an
otherwise zero buffer of length 0x213f3, the pass rewrites the operand
bytes at 0x20002-0x20003 to [0x34, 0xee] (0xe034 + 0x0e00 = 0xee34) and
leaves every other byte, in particular the opcode bytes at
0x20000-0x20001, unchanged. -/
theorem C8_corrected :
    ∃ r, patch_music_channel_locations chanBufA = some r ∧
      r[0x20002]? = some 0x34 ∧ r[0x20003]? = some 0xee ∧
      r[0x20000]? = some 0xdd ∧ r[0x20001]? = some 0x21 ∧
      ∀ j, j ≠ 0x20002 → j ≠ 0x20003 → r[j]? = chanBufA[j]? :=
  ⟨chanBufApatched, chanBufA_scan, chanBufApatched_at2, chanBufApatched_at3,
    by rw [chanBufApatched_frame _ (by omega) (by omega)]; exact chanBufA_p0,
    by rw [chanBufApatched_frame _ (by omega) (by omega)]; exact chanBufA_p1,
    chanBufApatched_frame⟩

/-! # Elements and length of chanBufB -/

theorem chanBufB_length : chanBufB.length = 0x213f3 := by
  unfold chanBufB
  simp only [List.length_append, List.length_replicate, List.length_cons,
    List.length_nil]

theorem chanBufB_lo (j : Nat) (h : j < 0x20daa) : chanBufB[j]? = some 0 := by
  unfold chanBufB
  exact pad3_lo _ _ _ _ h

theorem chanBufB_hi (j : Nat) (h1 : 0x20dae ≤ j) (h2 : j < 0x213f3) :
    chanBufB[j]? = some 0 := by
  unfold chanBufB
  have hl : ([0xdd, 0x21, 0x34, 0xe0] : List Nat).length = 4 := rfl
  exact pad3_hi _ _ _ _ (by rw [hl]; omega) (by rw [hl]; omega)

theorem chanBufB_pat (k : Nat) (hk : k < 4) :
    chanBufB[0x20daa + k]? = ([0xdd, 0x21, 0x34, 0xe0] : List Nat)[k]? := by
  unfold chanBufB
  have hl : ([0xdd, 0x21, 0x34, 0xe0] : List Nat).length = 4 := rfl
  rw [pad3_mid _ _ _ _ (by omega) (by rw [hl]; omega),
    show 0x20daa + k - 0x20daa = k from by omega]

theorem chanBufB_p0 : chanBufB[0x20daa]? = some 0xdd := by
  have h := chanBufB_pat 0 (by omega)
  rw [show (0x20daa + 0 : Nat) = 0x20daa from rfl] at h
  exact h.trans rfl

theorem chanBufB_p1 : chanBufB[0x20dab]? = some 0x21 := by
  have h := chanBufB_pat 1 (by omega)
  rw [show (0x20daa + 1 : Nat) = 0x20dab from rfl] at h
  exact h.trans rfl

theorem chanBufB_p2 : chanBufB[0x20dac]? = some 0x34 := by
  have h := chanBufB_pat 2 (by omega)
  rw [show (0x20daa + 2 : Nat) = 0x20dac from rfl] at h
  exact h.trans rfl

theorem chanBufB_p3 : chanBufB[0x20dad]? = some 0xe0 := by
  have h := chanBufB_pat 3 (by omega)
  rw [show (0x20daa + 3 : Nat) = 0x20dad from rfl] at h
  exact h.trans rfl

theorem chanBufBpatched_frame (j : Nat) (h2 : j ≠ 0x20dac)
    (h3 : j ≠ 0x20dad) : chanBufBpatched[j]? = chanBufB[j]? := by
  unfold chanBufBpatched
  rw [List.getElem?_set_ne (by omega), List.getElem?_set_ne (by omega)]

theorem chanBufBpatched_at2 : chanBufBpatched[0x20dac]? = some 0x34 := by
  unfold chanBufBpatched
  rw [List.getElem?_set_ne (by omega),
    List.getElem?_set_self (by rw [chanBufB_length]; omega)]

theorem chanBufBpatched_at3 : chanBufBpatched[0x20dad]? = some 0xee := by
  unfold chanBufBpatched
  rw [List.getElem?_set_self
    (by rw [List.length_set, chanBufB_length]; omega)]

/-! # The full scan over chanBufB -/

theorem chanBufB_scan :
    patch_music_channel_locations chanBufB = some chanBufBpatched := by
  have hskip1 : channel_go chanBufB 0xdaa 0x20000 = some chanBufB := by
    refine channel_go_skip 0xdaa chanBufB 0x20000 fun k hk => ?_
    have ho : chanBufB[0x20000 + k]? = some 0 :=
      chanBufB_lo (0x20000 + k) (by omega)
    exact channel_step_skip chanBufB (0x20000 + k)
      (chanCond1_false_b0 _ _ 0 ho (by decide))
      (chanCond2_false_b0 _ _ 0 ho (by decide))
  have hstepB1 : channel_step chanBufB (0x20000 + 0xdaa) = some chanBufB :=
    channel_step_ignored chanBufB (0x20000 + 0xdaa) (by decide)
  have hstepB2 : channel_step chanBufB (0x20000 + 0xdaa + 1) =
      some chanBufBpatched :=
    channel_step_patch2 chanBufB (0x20000 + 0xdaa + 1) (by decide)
      (show chanBufB[0x20000 + 0xdaa + 1]? = some 0x21 from chanBufB_p1)
      (show chanBufB[0x20000 + 0xdaa + 1 + 1]? = some 0x34 from chanBufB_p2)
      (show chanBufB[0x20000 + 0xdaa + 1 + 2]? = some 0xe0 from chanBufB_p3)
  have htailB : channel_go chanBufBpatched 0x644 0x20dac =
      some chanBufBpatched := by
    refine channel_go_skip 0x644 chanBufBpatched 0x20dac fun k hk => ?_
    by_cases hk0 : k = 0
    · subst hk0
      exact channel_step_skip chanBufBpatched (0x20dac + 0)
        (chanCond1_false_b0 _ _ 0x34
          (show chanBufBpatched[0x20dac + 0]? = some 0x34 from
            chanBufBpatched_at2) (by decide))
        (chanCond2_false_b0 _ _ 0x34
          (show chanBufBpatched[0x20dac + 0]? = some 0x34 from
            chanBufBpatched_at2) (by decide))
    · by_cases hk1 : k = 1
      · subst hk1
        exact channel_step_skip chanBufBpatched (0x20dac + 1)
          (chanCond1_false_b0 _ _ 0xee
            (show chanBufBpatched[0x20dac + 1]? = some 0xee from
              chanBufBpatched_at3) (by decide))
          (chanCond2_false_b0 _ _ 0xee
            (show chanBufBpatched[0x20dac + 1]? = some 0xee from
              chanBufBpatched_at3) (by decide))
      · have ho : chanBufBpatched[0x20dac + k]? = some 0 := by
          rw [chanBufBpatched_frame _ (by omega) (by omega)]
          exact chanBufB_hi (0x20dac + k) (by omega) (by omega)
        exact channel_step_skip chanBufBpatched (0x20dac + k)
          (chanCond1_false_b0 _ _ 0 ho (by decide))
          (chanCond2_false_b0 _ _ 0 ho (by decide))
  unfold patch_music_channel_locations
  rw [show (0x213f0 - 0x20000 : Nat) = 0xdaa + (1 + (1 + 0x644)) from rfl,
    channel_go_append 0xdaa (1 + (1 + 0x644)) chanBufB 0x20000, hskip1,
    Option.some_bind, channel_go_append 1 (1 + 0x644) chanBufB
      (0x20000 + 0xdaa), channel_go_one, hstepB1, Option.some_bind,
    channel_go_append 1 0x644 chanBufB (0x20000 + 0xdaa + 1), channel_go_one,
    hstepB2, Option.some_bind]
  exact htailB

/-! # Claim C6 -/

/-- C6 counterexample: on chanBufB the indexed-load pattern
0xdd 0x21 .. 0xe0 matches at the ignored offset 0x20daa, yet the pass
rewrites its operand byte at 0x20dad from 0xe0 to 0xee: the
immediate-load pattern also matches at the non-ignored neighbouring
offset 0x20dab (0x21 with high operand byte 0xe0) and relocates the very
same bytes. -/
theorem C6_counterexample :
    (0x20daa : Nat) ∈ PATCH_IGNORE_LIST ∧
    chanBufB[0x20daa]? = some 0xdd ∧ chanBufB[0x20dab]? = some 0x21 ∧
    (0xe0 &&& 0xfc : Nat) = 0xe0 ∧ chanBufB[0x20dad]? = some 0xe0 ∧
    ∃ r, patch_music_channel_locations chanBufB = some r ∧
      r[0x20dad]? = some 0xee :=
  ⟨by decide, chanBufB_p0, chanBufB_p1, by decide, chanBufB_p3,
    chanBufBpatched, chanBufB_scan, chanBufBpatched_at3⟩

/-- C6 amended: for every buffer and every offset in the Ignore Set, the
scan iteration AT that offset performs no mutation at all (the loop body
is skipped before any pattern test); the operand bytes of a match
starting there can nevertheless still be rewritten by a match at a
neighbouring offset that is not in the Ignore Set. -/
theorem C6_corrected (rom : List Nat) (o : Nat)
    (h : o ∈ PATCH_IGNORE_LIST) : channel_step rom o = some rom :=
  channel_step_ignored rom o h

/-- C6 witness: the loop body at 0x20daa leaves any buffer unchanged,
for instance the empty one. -/
theorem C6_witness : channel_step [] 0x20daa = some [] :=
  C6_corrected [] 0x20daa (by decide)

/-! # Totality of the channel scan on byte-valued buffers -/

theorem chanCond1_false_b1 (rom : List Nat) (o b1 : Nat)
    (h0 : rom[o]? = some 0xdd) (hb1 : rom[o + 1]? = some b1)
    (hne : b1 ≠ 0x21) : chanCond1 rom o = some false := by
  unfold chanCond1
  simp only [Option.bind_eq_bind]
  rw [h0, Option.some_bind, if_pos rfl, hb1, Option.some_bind, if_neg hne]
  rfl

theorem chanCond1_false_mask (rom : List Nat) (o b3 : Nat)
    (h0 : rom[o]? = some 0xdd) (h1 : rom[o + 1]? = some 0x21)
    (h3 : rom[o + 3]? = some b3) (hm : (b3 &&& 0xfc == 0xe0) = false) :
    chanCond1 rom o = some false := by
  unfold chanCond1
  simp only [Option.bind_eq_bind]
  rw [h0, Option.some_bind, if_pos rfl, h1, Option.some_bind, if_pos rfl, h3,
    Option.some_bind, hm]
  rfl

theorem chanCond1_some (rom : List Nat) (o : Nat)
    (h0 : o < rom.length) (h1 : o + 1 < rom.length)
    (h3 : o + 3 < rom.length) :
    chanCond1 rom o = some false ∨
    (chanCond1 rom o = some true ∧ rom[o]? = some 0xdd ∧
      rom[o + 1]? = some 0x21 ∧
      ∃ b3, rom[o + 3]? = some b3 ∧ (b3 &&& 0xfc == 0xe0) = true) := by
  obtain ⟨b0, hb0⟩ : ∃ b, rom[o]? = some b :=
    ⟨_, List.getElem?_eq_getElem h0⟩
  by_cases hdd : b0 = 0xdd
  · subst hdd
    obtain ⟨b1, hb1⟩ : ∃ b, rom[o + 1]? = some b :=
      ⟨_, List.getElem?_eq_getElem h1⟩
    by_cases h21 : b1 = 0x21
    · subst h21
      obtain ⟨b3, hb3⟩ : ∃ b, rom[o + 3]? = some b :=
        ⟨_, List.getElem?_eq_getElem h3⟩
      cases hm : (b3 &&& 0xfc == 0xe0) with
      | false => exact Or.inl (chanCond1_false_mask rom o b3 hb0 hb1 hb3 hm)
      | true =>
        exact Or.inr ⟨chanCond1_true rom o b3 hb0 hb1 hb3 hm, hb0, hb1, b3,
          hb3, hm⟩
    · exact Or.inl (chanCond1_false_b1 rom o b1 hb0 hb1 h21)
  · exact Or.inl (chanCond1_false_b0 rom o b0 hb0 hdd)

theorem chanCond2_some (rom : List Nat) (o : Nat)
    (h0 : o < rom.length) (h2 : o + 2 < rom.length) :
    chanCond2 rom o = some false ∨
    (chanCond2 rom o = some true ∧
      ∃ b2, rom[o + 2]? = some b2 ∧ (b2 &&& 0xfc == 0xe0) = true) := by
  obtain ⟨b0, hb0⟩ : ∃ b, rom[o]? = some b :=
    ⟨_, List.getElem?_eq_getElem h0⟩
  by_cases hmem : b0 ∈ CHAN_OPCODES
  · obtain ⟨b2, hb2⟩ : ∃ b, rom[o + 2]? = some b :=
      ⟨_, List.getElem?_eq_getElem h2⟩
    cases hm : (b2 &&& 0xfc == 0xe0) with
    | false => exact Or.inl (chanCond2_false_mask rom o b0 b2 hb0 hb2 hm)
    | true =>
      exact Or.inr ⟨chanCond2_true rom o b0 b2 hb0 hmem hb2 hm, b2, hb2, hm⟩
  · exact Or.inl (chanCond2_false_b0 rom o b0 hb0 hmem)

set_option maxRecDepth 8000 in
theorem offset_address_total (rom : List Nat) (i : Nat) (b0 b1 : Nat)
    (h0 : rom[i]? = some b0) (h1 : rom[i + 1]? = some b1)
    (hbytes : ∀ b ∈ rom, b < 256) (hm : (b1 &&& 0xfc == 0xe0) = true) :
    ∃ r, offset_address rom i CHANNEL_OFFSET = some r ∧
      r.length = rom.length ∧ ∀ b ∈ r, b < 256 := by
  have hb0 : b0 < 256 := hbytes b0 (List.getElem?_mem h0)
  have hb1 : b1 < 256 := hbytes b1 (List.getElem?_mem h1)
  have hb1e : b1 ≤ 0xe3 := by
    have hd : ∀ x, x < 256 → (x &&& 0xfc == 0xe0) = true → x ≤ 0xe3 := by
      decide
    exact hd b1 hb1 hm
  have hge : 0 ≤ (b0 : Int) + b1 * 256 + CHANNEL_OFFSET := by
    simp only [CHANNEL_OFFSET]
    omega
  have hlt : (b0 : Int) + b1 * 256 + CHANNEL_OFFSET < 65536 := by
    simp only [CHANNEL_OFFSET]
    omega
  have hr := offset_address_some rom i CHANNEL_OFFSET b0 b1 h0 h1 hge hlt
  refine ⟨_, hr, by simp [List.length_set], ?_⟩
  intro b hb
  rcases List.mem_or_eq_of_mem_set hb with hb | rfl
  · rcases List.mem_or_eq_of_mem_set hb with hb | rfl
    · exact hbytes b hb
    · exact Nat.mod_lt _ (by omega)
  · have hA : ((b0 : Int) + b1 * 256 + CHANNEL_OFFSET).toNat < 65536 := by
      simp only [CHANNEL_OFFSET] at hlt ⊢
      omega
    omega

theorem channel_step_total (rom : List Nat) (o : Nat)
    (hbytes : ∀ b ∈ rom, b < 256) (hlen : o + 3 < rom.length) :
    ∃ r, channel_step rom o = some r ∧ r.length = rom.length ∧
      ∀ b ∈ r, b < 256 := by
  by_cases hig : o ∈ PATCH_IGNORE_LIST
  · exact ⟨rom, channel_step_ignored rom o hig, rfl, hbytes⟩
  rcases chanCond1_some rom o (by omega) (by omega) hlen with
    hc1 | ⟨hc1, h0dd, h121, b3, h3, hm3⟩
  · rcases chanCond2_some rom o (by omega) (by omega) with
      hc2 | ⟨hc2, b2, hb2, hm2⟩
    · exact ⟨rom, channel_step_skip rom o hc1 hc2, rfl, hbytes⟩
    · obtain ⟨a1, ha1⟩ : ∃ x, rom[o + 1]? = some x :=
        ⟨_, List.getElem?_eq_getElem (by omega)⟩
      have hb2' : rom[o + 1 + 1]? = some b2 := by
        rw [show o + 1 + 1 = o + 2 from by omega]
        exact hb2
      obtain ⟨r, hoa, hrlen, hrbytes⟩ :=
        offset_address_total rom (o + 1) a1 b2 ha1 hb2' hbytes hm2
      refine ⟨r, ?_, hrlen, hrbytes⟩
      unfold channel_step
      rw [if_neg hig]
      simp only [Option.bind_eq_bind]
      rw [hc1, Option.some_bind, if_neg (by simp : ¬false = true),
        Option.some_bind, hc2, Option.some_bind, if_pos rfl, hoa]
  · obtain ⟨a2, ha2⟩ : ∃ x, rom[o + 2]? = some x :=
      ⟨_, List.getElem?_eq_getElem (by omega)⟩
    have h3' : rom[o + 2 + 1]? = some b3 := by
      rw [show o + 2 + 1 = o + 3 from by omega]
      exact h3
    obtain ⟨r1, hoa1, hr1len, hr1bytes⟩ :=
      offset_address_total rom (o + 2) a2 b3 ha2 h3' hbytes hm3
    rcases chanCond2_some r1 o (by rw [hr1len]; omega)
        (by rw [hr1len]; omega) with hc2 | ⟨hc2, b2, hb2, hm2⟩
    · refine ⟨r1, ?_, hr1len, hr1bytes⟩
      unfold channel_step
      rw [if_neg hig]
      simp only [Option.bind_eq_bind]
      rw [hc1, Option.some_bind, if_pos rfl, hoa1, Option.some_bind, hc2,
        Option.some_bind, if_neg (by simp : ¬false = true)]
    · obtain ⟨a1, ha1⟩ : ∃ x, r1[o + 1]? = some x :=
        ⟨_, List.getElem?_eq_getElem (by rw [hr1len]; omega)⟩
      have hb2' : r1[o + 1 + 1]? = some b2 := by
        rw [show o + 1 + 1 = o + 2 from by omega]
        exact hb2
      obtain ⟨r2, hoa2, hr2len, hr2bytes⟩ :=
        offset_address_total r1 (o + 1) a1 b2 ha1 hb2' hr1bytes hm2
      refine ⟨r2, ?_, by rw [hr2len, hr1len], hr2bytes⟩
      unfold channel_step
      rw [if_neg hig]
      simp only [Option.bind_eq_bind]
      rw [hc1, Option.some_bind, if_pos rfl, hoa1, Option.some_bind, hc2,
        Option.some_bind, if_pos rfl, hoa2]

theorem channel_go_total (fuel : Nat) : ∀ (rom : List Nat) (o : Nat),
    (∀ b ∈ rom, b < 256) → o + fuel + 2 < rom.length →
    ∃ r, channel_go rom fuel o = some r := by
  induction fuel with
  | zero => intro rom o _ _; exact ⟨rom, rfl⟩
  | succ n ih =>
    intro rom o hbytes hlen
    obtain ⟨r1, hs, hl, hb⟩ := channel_step_total rom o hbytes (by omega)
    obtain ⟨r, hgo⟩ := ih r1 (o + 1) hb (by rw [hl]; omega)
    refine ⟨r, ?_⟩
    simp only [channel_go, Option.bind_eq_bind]
    rw [hs, Option.some_bind]
    exact hgo

/-! # Claim C10 -/

/-- C10 counterexample: buffer length 0x213f3 is NOT necessary.  On the
all-zero buffer of length 0x213f2 the scan completes without any
out-of-bounds access: at every offset the first byte read is 0, which
short-circuits both conditions before any of the reads at offset+1..3
happen. -/
theorem C10_counterexample :
    (List.replicate 0x213f2 (0 : Nat)).length < 0x213f3 ∧
    ∃ r, patch_music_channel_locations (List.replicate 0x213f2 0) =
      some r := by
  constructor
  · rw [List.length_replicate]
    omega
  · refine ⟨List.replicate 0x213f2 0, ?_⟩
    unfold patch_music_channel_locations
    rw [show (0x213f0 - 0x20000 : Nat) = 0x13f0 from rfl]
    refine channel_go_skip 0x13f0 _ 0x20000 fun k hk => ?_
    have ho : (List.replicate 0x213f2 (0 : Nat))[0x20000 + k]? = some 0 := by
      rw [List.getElem?_replicate, if_pos (by omega)]
    exact channel_step_skip _ _
      (chanCond1_false_b0 _ _ 0 ho (by decide))
      (chanCond2_false_b0 _ _ 0 ho (by decide))

/-- C10 amended: every index the scan can touch lies in
[0x20000, 0x213f2], so length at least 0x213f3 is SUFFICIENT: on any
byte-valued buffer of that length the pass completes without raising.
It is not necessary, because the conditions short-circuit: a buffer can
be up to three bytes shorter and still scan cleanly when its tail bytes
do not start a pattern. -/
theorem C10_corrected (rom : List Nat) (hbytes : ∀ b ∈ rom, b < 256)
    (hlen : 0x213f3 ≤ rom.length) :
    ∃ r, patch_music_channel_locations rom = some r := by
  unfold patch_music_channel_locations
  rw [show (0x213f0 - 0x20000 : Nat) = 0x13f0 from rfl]
  exact channel_go_total 0x13f0 rom 0x20000 hbytes (by omega)

/-- C10 witness: the all-zero buffer of length exactly 0x213f3. -/
theorem C10_witness :
    ∃ r, patch_music_channel_locations (List.replicate 0x213f3 0) = some r :=
  C10_corrected (List.replicate 0x213f3 0)
    (fun b hb => by rw [List.eq_of_mem_replicate hb]; omega)
    (List.length_replicate 0x213f3 0).symm.le

end VkillerScc
